import Mathlib

/-!
# Mood2Music front-end — verification of the analysis/result pipeline

Shallow embedding of `src/CameraBox.tsx` (the `App` component and its pure
helpers).  JavaScript numbers are modelled as rationals plus an explicit
`nan` value; JSON values reaching the normalization code are modelled by
`JSVal`; browser platform APIs that the component calls (`new URL`,
`JSON.parse`, `fetch`) are modelled as explicit Lean functions or as
function/outcome parameters, as documented at each definition.
-/

/-- A captured image blob, opaque to the UI logic: only identity matters. -/
abbrev Blob := Nat

/-- A playlist item, `type Item = { title; source; url; thumb? }`
(CameraBox.tsx:114). -/
structure Item where
  title : String
  source : String
  url : String
  thumb : Option String
deriving DecidableEq

/-- The origin tag of an analysis, `"camera" | "upload" | "text"`
(CameraBox.tsx:120). -/
inductive Origin where
  | camera
  | upload
  | text
deriving DecidableEq

/-- A JavaScript number: a rational, or NaN.  (The UI code never produces
infinities on the paths modelled here.) -/
inductive JSNum where
  | num (q : ℚ)
  | nan
deriving DecidableEq

/-- A history entry, `type HistoryRow` (CameraBox.tsx:115-122).  The source
field `from` is a Lean keyword and is embedded as `origin`. -/
structure HistoryRow where
  «when» : String
  mood : String
  emoji : String
  confidence : JSNum
  origin : Origin
  title : Option String
deriving DecidableEq

/-- A JSON value in a response field, as the untyped `j : any` of
`updateResults` can hold it.  Arrays are arrays of playlist items (the only
arrays the component reads). -/
inductive JSVal where
  | num (q : ℚ)
  | nan
  | str (s : String)
  | boolean (b : Bool)
  | jnull
  | undef
  | arr (l : List Item)
deriving DecidableEq

/-- JavaScript truthiness of a `JSVal`: `0`, `NaN`, `""`, `false`, `null`
and `undefined` are falsy; every other value (any array included) is truthy. -/
def truthy : JSVal → Bool
  | .num q => q != 0
  | .nan => false
  | .str s => s != ""
  | .boolean b => b
  | .jnull => false
  | .undef => false
  | .arr _ => true

/-- JavaScript `a || b` on `JSVal`s. -/
def jsOr (a b : JSVal) : JSVal := if truthy a then a else b

/-- JavaScript `a || b` where `a` is a string: the empty string is the one
falsy string. -/
def strOr (a b : String) : String := if a == "" then b else a

/-- JavaScript `a || b` where `a` is an absent-or-string field (absent and
`""` both fall through to `b`). -/
def jsOrD (a : Option String) (b : String) : String := strOr (a.getD "") b

/-! ## String helpers

The component uses `String.prototype.toLowerCase`, `trim`, `split` and
`includes`.  These are embedded as character-list functions (ASCII-faithful:
every string the claims touch is ASCII apart from emoji, which the case and
split functions pass through unchanged). -/

/-- JavaScript `s.toLowerCase()` (ASCII range). -/
def lowerStr (s : String) : String := String.mk (s.data.map Char.toLower)

/-- JavaScript `s.trim()`: strip leading and trailing whitespace. -/
def trimStr (s : String) : String :=
  String.mk (((s.data.dropWhile Char.isWhitespace).reverse.dropWhile Char.isWhitespace).reverse)

/-- Split a character list at every occurrence of `sep`; always nonempty,
`n` separators give `n + 1` (possibly empty) pieces — the behaviour of
JavaScript `String.prototype.split` with a one-character separator. -/
def splitCharList (sep : Char) : List Char → List (List Char)
  | [] => [[]]
  | c :: cs =>
    if c == sep then [] :: splitCharList sep cs
    else
      match splitCharList sep cs with
      | x :: xs => (c :: x) :: xs
      | [] => [[c]]

/-- JavaScript `s.split(sep)` for a one-character separator. -/
def splitStr (s : String) (sep : Char) : List String :=
  (splitCharList sep s.data).map String.mk

/-- `pat` occurs at the head of `l`. -/
def headMatches : List Char → List Char → Bool
  | [], _ => true
  | _ :: _, [] => false
  | p :: ps, c :: cs => p == c && headMatches ps cs

/-- `pat` occurs somewhere in `l` — JavaScript `String.prototype.includes`
for a nonempty pattern (the component only ever passes nonempty ones). -/
def containsSub (l pat : List Char) : Bool :=
  match l with
  | [] => headMatches pat []
  | _ :: cs => headMatches pat l || containsSub cs pat

/-- JavaScript `s.includes(pat)` for nonempty `pat`. -/
def jsIncludes (s pat : String) : Bool := containsSub s.data pat.data

/-- Split `l` at the first occurrence of the nonempty pattern `pat`:
`some (before, after)`, or `none` when `pat` does not occur. -/
def splitFirstSub (l pat : List Char) : Option (List Char × List Char) :=
  match l with
  | [] => none
  | c :: cs =>
    if headMatches pat l then some ([], l.drop pat.length)
    else (splitFirstSub cs pat).map (fun p => (c :: p.1, p.2))

/-! ## The URL platform API

`toSpotifyEmbed` (CameraBox.tsx:190-203) calls the browser's WHATWG
`new URL(url)` and reads `hostname` and `pathname`; a parse failure throws
and is caught.  `parseURL` models that API for absolute `scheme://…` URLs:
the fragment (first `#`) and query (first `?`) are cut, the authority is the
part before the first `/`, the hostname is the authority after the last `@`
and before the first `:`, lowercased; the pathname is the rest (`/` when
empty).  A string without `://`, an empty or non-alphabetic scheme, or an
empty host does not parse (`new URL` throws there too). -/

structure ParsedURL where
  hostname : String
  pathname : String
deriving DecidableEq

/-- A scheme: nonempty, a letter first, then letters, digits, `+`, `-`, `.`. -/
def schemeOk : List Char → Bool
  | [] => false
  | c :: cs => c.isAlpha && cs.all (fun d => d.isAlphanum || d == '+' || d == '-' || d == '.')

/-- The hostname inside an authority: after the last `@`, before the first
`:`, lowercased. -/
def hostOf (auth : List Char) : List Char :=
  (((splitCharList '@' auth).getLastD []).takeWhile (fun c => !(c == ':'))).map Char.toLower

/-- Models the browser's `new URL(s)` (hostname and pathname only). -/
def parseURL (s : String) : Option ParsedURL :=
  match splitFirstSub s.data "://".data with
  | none => none
  | some (schemeCs, rest) =>
    if schemeOk schemeCs then
      let noFrag := rest.takeWhile (fun c => !(c == '#'))
      let noQuery := noFrag.takeWhile (fun c => !(c == '?'))
      let auth := noQuery.takeWhile (fun c => !(c == '/'))
      let path := noQuery.dropWhile (fun c => !(c == '/'))
      let host := hostOf auth
      if host.isEmpty then none
      else some { hostname := String.mk host
                  pathname := String.mk (if path.isEmpty then ['/'] else path) }
    else none

/-- `const parts = u.pathname.split("/").filter(Boolean)`
(CameraBox.tsx:194): the nonempty `/`-segments of the pathname. -/
def pathSegments (u : ParsedURL) : List String :=
  (splitStr u.pathname '/').filter (fun p => p != "")

/-- `toSpotifyEmbed` (CameraBox.tsx:190-203): inside a `try`, parse the URL;
if the hostname includes `"open.spotify.com"` and the pathname has at least
two nonempty `/`-segments, build
`https://open.spotify.com/embed/<parts[0]>/<parts[1].split("?")[0]>`;
every other path (parse throw included) returns `null`. -/
def toSpotifyEmbed (url : String) : Option String :=
  match parseURL url with
  | none => none
  | some u =>
    if jsIncludes u.hostname "open.spotify.com" then
      match pathSegments u with
      | ty :: id :: _ =>
        some ("https://open.spotify.com/embed/" ++ ty ++ "/" ++ ((splitStr id '?').headD ""))
      | _ => none
    else none

/-! ## JavaScript number coercion

`updateResults` runs `Number(j.confidence || 0)` and the renderers run
`Math.round`, `Math.min`, `Math.max`.  `Number` is modelled on the `JSVal`
shapes above; its string case covers signed decimal literals (a trimmed
empty string is `0`, any other unparsable text is `NaN`, as in JavaScript —
exotic literal forms such as hex are outside the modelled response values). -/

/-- Numeric value of a digit list (most significant first). -/
def natOfDigits (cs : List Char) : ℕ :=
  cs.foldl (fun acc c => acc * 10 + (c.toNat - 48)) 0

/-- An unsigned decimal literal: `digits`, `digits.digits`, `.digits`,
`digits.` (at least one digit overall). -/
def parseUnsignedDec (cs : List Char) : Option ℚ :=
  let intCs := cs.takeWhile Char.isDigit
  let rest := cs.dropWhile Char.isDigit
  match rest with
  | [] => if intCs.isEmpty then none else some (natOfDigits intCs)
  | '.' :: fracCs =>
    if fracCs.all Char.isDigit && !(intCs.isEmpty && fracCs.isEmpty) then
      some ((natOfDigits intCs : ℚ) + (natOfDigits fracCs : ℚ) / ((10 : ℚ) ^ fracCs.length))
    else none
  | _ => none

/-- A signed decimal literal. -/
def parseDec (cs : List Char) : Option ℚ :=
  match cs with
  | '-' :: rest => (parseUnsignedDec rest).map (fun q => -q)
  | '+' :: rest => parseUnsignedDec rest
  | _ => parseUnsignedDec cs

/-- JavaScript `Number(v)` on the modelled values.  An array of playlist
items is an array of objects: `Number([])` is `0` and any nonempty one is
`NaN` (its string form is non-numeric). -/
def jsToNumber : JSVal → JSNum
  | .num q => .num q
  | .nan => .nan
  | .str s =>
    let t := (trimStr s).data
    if t.isEmpty then .num 0
    else
      match parseDec t with
      | some q => .num q
      | none => .nan
  | .boolean b => .num (if b then 1 else 0)
  | .jnull => .num 0
  | .arr [] => .num 0
  | .arr (_ :: _) => .nan
  | .undef => .nan

/-- `const clamp01 = (n) => Math.max(0, Math.min(1, n || 0))`
(CameraBox.tsx:206): `n || 0` maps `NaN` (and `0`) to `0`. -/
def clamp01 (n : JSNum) : ℚ :=
  match n with
  | .num q => max 0 (min 1 q)
  | .nan => 0

/-- JavaScript `Math.round(q)`: half-up, i.e. `⌊q + 1/2⌋`. -/
def jsRound (q : ℚ) : ℤ := ⌊q + 1 / 2⌋

/-- NaN-propagating multiplication by a constant. -/
def jsMulN (a : JSNum) (b : ℚ) : JSNum :=
  match a with
  | .num q => .num (q * b)
  | .nan => .nan

/-- NaN-propagating `Math.round`. -/
def jsRoundN : JSNum → JSNum
  | .num q => .num ((jsRound q : ℤ) : ℚ)
  | .nan => .nan

/-- `Math.round(conf * 100)` — the confidence percentage the main result
section renders, in the width of the bar and in the `…% confidence` text
(CameraBox.tsx:561,563).  No clamping is applied there. -/
def mainConfPct (conf : JSNum) : JSNum := jsRoundN (jsMulN conf 100)

/-! ## MiniChart (CameraBox.tsx:209-227) -/

/-- `Object.entries(probs).sort((a, b) => b[1] - a[1])`: a stable sort by
value, descending (`Array.prototype.sort` is stable). -/
def sortProbsDesc (l : List (String × ℚ)) : List (String × ℚ) :=
  l.mergeSort (fun a b => decide (b.2 ≤ a.2))

/-- `MiniChart({ probs })`: `null` when `probs` is `null`; otherwise the
entries sorted by probability descending, capped to 6, each rendered as
`Math.round(clamp01(v) * 100)` percent. -/
def MiniChart (probs : Option (List (String × ℚ))) : Option (List (String × ℤ)) :=
  match probs with
  | none => none
  | some ps =>
    some (((sortProbsDesc ps).take 6).map (fun kv => (kv.1, jsRound (clamp01 (.num kv.2) * 100))))

/-! ## Response normalization and state update (CameraBox.tsx:323-349) -/

/-- The static label→emoji table `EMOJI` (CameraBox.tsx:129-143). -/
def EMOJI : List (String × String) :=
  [("happy", "😃"), ("positive", "😃"), ("excited", "🔥"), ("calm", "😴"),
   ("romantic", "💖"), ("lonely", "😔"), ("motivated", "💪"), ("sad", "😢"),
   ("angry", "😡"), ("fear", "😨"), ("surprise", "😲"), ("disgust", "🤢"),
   ("neutral", "😐")]

/-- `EMOJI[m]`: the table lookup, `undefined` (here `none`) when absent. -/
def emojiFor (m : String) : Option String :=
  (EMOJI.find? (fun p => p.1 == m)).map (fun p => p.2)

/-- An analysis response `j` as `updateResults` reads it.  `mood` and
`emoji` are strings when present (spec §6's response schema); `confidence`
and `playlist` are arbitrary values; `probs` is an object's entries in
insertion order, `none` for an absent (or otherwise falsy) field, matching
`j.probs || null`. -/
structure JResp where
  mood : Option String
  emoji : Option String
  confidence : JSVal
  playlist : JSVal
  probs : Option (List (String × ℚ))
deriving DecidableEq

/-- `const m = (j.mood || "").toLowerCase()` (CameraBox.tsx:324). -/
def normMood (j : JResp) : String := lowerStr (jsOrD j.mood "")

/-- `const e = j.emoji || EMOJI[m] || "🎧"` (CameraBox.tsx:325). -/
def normEmoji (j : JResp) : String :=
  jsOrD j.emoji (jsOrD (emojiFor (normMood j)) "🎧")

/-- `const c = Number(j.confidence || 0)` (CameraBox.tsx:326). -/
def normConf (j : JResp) : JSNum := jsToNumber (jsOr j.confidence (.num 0))

/-- `Array.isArray(j.playlist) ? j.playlist : []` (CameraBox.tsx:331). -/
def normPlaylist (j : JResp) : List Item :=
  match j.playlist with
  | .arr l => l
  | _ => []

/-- The `App` component state the analysis pipeline touches
(CameraBox.tsx:233-250). -/
structure AppState where
  mood : String
  emoji : String
  conf : JSNum
  list : List Item
  probs : Option (List (String × ℚ))
  history : List HistoryRow
  text : String
  loading : Bool
  toast : Option String
deriving DecidableEq

/-- The history entry `updateResults` prepends (CameraBox.tsx:335-344):
`mood: m || "neutral"`, `title: j.playlist?.[0]?.title` (defined exactly
when the playlist is a nonempty array — optional chaining on any other
value yields `undefined`). -/
def historyEntry (j : JResp) (whenT : String) (origin : Origin) : HistoryRow :=
  { «when» := whenT
    mood := strOr (normMood j) "neutral"
    emoji := normEmoji j
    confidence := normConf j
    origin := origin
    title := match j.playlist with
             | .arr (it :: _) => some it.title
             | _ => none }

/-- `updateResults(j, from)` (CameraBox.tsx:323-349): set the normalized
result fields and prepend a history entry, truncating to 8
(`[entry, ...h].slice(0, 8)`). -/
def updateResults (j : JResp) (whenT : String) (origin : Origin) (st : AppState) : AppState :=
  { st with
    mood := normMood j
    emoji := normEmoji j
    conf := normConf j
    list := normPlaylist j
    probs := j.probs
    history := (historyEntry j whenT origin :: st.history).take 8 }

/-! ## Backend calls (CameraBox.tsx:278-321)

A `fetch` + `res.json()` pair either yields a parsed response or throws
(network failure, or a body that is not JSON); the pair's outcome is a
parameter `Option JResp`, `none` for the thrown case.  Each call returns
the resulting state and the list of HTTP requests issued, in order. -/

inductive Request where
  | postText (body : String)
  | postImages (field : String) (files : List Blob)
  | postImage (field : String) (file : Blob)
deriving DecidableEq

/-- `analyzeText` (CameraBox.tsx:278-294): `if (!text.trim()) return;` —
otherwise POST the text, update results on success, toast on failure,
clearing `loading` either way. -/
def analyzeText (st : AppState) (resp : Option JResp) (whenT : String) :
    AppState × List Request :=
  if trimStr st.text == "" then (st, [])
  else
    match resp with
    | some j => ({ updateResults j whenT .text st with loading := false }, [.postText st.text])
    | none => ({ st with toast := some "Failed to analyze text", loading := false },
               [.postText st.text])

/-- `analyzeImagesBlobs` (CameraBox.tsx:296-321): POST all blobs under the
field `"files"` to `/api/predict/images`; if that fetch/parse throws, and
`blobs[0]` exists, POST the first blob alone under the field `"file"` to
`/api/predict/image` (one fallback, no further retry); a failure with no
first blob, or of the fallback itself, only toasts. -/
def analyzeImagesBlobs (blobs : List Blob) (origin : Origin)
    (imagesResp imageResp : Option JResp) (whenT : String) (st : AppState) :
    AppState × List Request :=
  let req1 := Request.postImages "files" blobs
  match imagesResp with
  | some j => ({ updateResults j whenT origin st with loading := false }, [req1])
  | none =>
    match blobs with
    | b :: _ =>
      match imageResp with
      | some j2 => ({ updateResults j2 whenT origin st with loading := false },
                    [req1, .postImage "file" b])
      | none => ({ st with toast := some "Failed to analyze image", loading := false },
                 [req1, .postImage "file" b])
    | [] => ({ st with toast := some "Failed to analyze image", loading := false }, [req1])

/-! ## History load (CameraBox.tsx:244-247) -/

/-- The outcome of a `JSON.parse` call: a value, or a thrown `SyntaxError`. -/
inductive JSONOutcome (α : Type) where
  | ok (v : α)
  | thrown
deriving DecidableEq

/-- The `useState` initializer for `history`:
`try { return JSON.parse(localStorage.getItem("mood_history") || "[]"); }
catch { return []; }`.  `stored` is what `localStorage.getItem` returned
(`none` = `null`, i.e. no stored value); `parse` models `JSON.parse` on
history blobs. -/
def loadHistory (stored : Option String)
    (parse : String → JSONOutcome (List HistoryRow)) : List HistoryRow :=
  match parse (jsOrD stored "[]") with
  | .ok v => v
  | .thrown => []

/-! ## Playlist filtering (CameraBox.tsx:407-416) -/

inductive Mode where
  | all
  | focus
  | chill
  | workout
deriving DecidableEq

/-- The keyword sets of the non-`all` categories, as the nested ternary
computes them (`focus ? … : chill ? … : …`). -/
def categoryKeywords (mode : Mode) : List String :=
  if mode == .focus then
    ["focus", "study", "lofi", "instrumental", "ambient", "concentration", "classical"]
  else if mode == .chill then
    ["chill", "relax", "calm", "soothing", "coffee", "vibes", "jazz", "acoustic"]
  else
    ["workout", "pump", "gym", "energy", "power", "motivation", "edm", "hip-hop"]

/-- `filteredList` (CameraBox.tsx:407-416): `"all"` returns the list as is;
otherwise keep the items whose lowercased title includes some keyword
(`(it.title || "")` is the identity here since `"" || "" === ""`). -/
def filteredList (mode : Mode) (list : List Item) : List Item :=
  if mode == .all then list
  else list.filter (fun it =>
    (categoryKeywords mode).any (fun k => jsIncludes (lowerStr (strOr it.title "")) k))


/-! ## Concrete inputs used by witnesses and counterexamples -/

/-- The initial `App` state (CameraBox.tsx:233-250): empty results, the
default `"🎧"` emoji, confidence `0`, nothing loading. -/
def st0 : AppState :=
  { mood := "", emoji := "🎧", conf := .num 0, list := [], probs := none,
    history := [], text := "", loading := false, toast := none }

/-- A concrete stand-in for `JSON.parse` on history blobs: parses exactly
the literal `"[]"`, throws on everything else. -/
def parseStub : String → JSONOutcome (List HistoryRow) :=
  fun s => if s = "[]" then .ok [] else .thrown

/-- A response whose `confidence` field holds the number `2` (outside
`[0, 1]`). -/
def respConf2 : JResp :=
  { mood := some "happy", emoji := none, confidence := .num 2,
    playlist := .undef, probs := none }

/-- A response whose `confidence` field holds the truthy non-numeric string
`"abc"`. -/
def respConfAbc : JResp :=
  { mood := some "happy", emoji := none, confidence := .str "abc",
    playlist := .undef, probs := none }

/-! ## Helper lemmas -/

theorem splitCharList_ne_nil (sep : Char) (cs : List Char) : splitCharList sep cs ≠ [] := by
  induction cs with
  | nil => simp [splitCharList]
  | cons c cs ih =>
    unfold splitCharList
    by_cases h : (c == sep) = true
    · simp [h]
    · simp only [h]
      cases hr : splitCharList sep cs with
      | nil => exact absurd hr ih
      | cons x xs => simp

/-- Every character of every piece of `splitCharList sep cs` is a
character of `cs` other than `sep`. -/
theorem mem_of_mem_splitCharList (sep : Char) (cs : List Char) :
    ∀ part ∈ splitCharList sep cs, ∀ c ∈ part, c ∈ cs ∧ ¬c = sep := by
  induction cs with
  | nil =>
    intro part hp c hc
    simp [splitCharList] at hp
    subst hp
    simp at hc
  | cons c0 cs ih =>
    intro part hp c hc
    unfold splitCharList at hp
    by_cases h : (c0 == sep) = true
    · simp only [h, if_true, List.mem_cons] at hp
      rcases hp with rfl | hp
      · simp at hc
      · have := ih part hp c hc
        exact ⟨List.mem_cons_of_mem _ this.1, this.2⟩
    · simp only [h, if_false] at hp
      cases hr : splitCharList sep cs with
      | nil => exact absurd hr (splitCharList_ne_nil sep cs)
      | cons x xs =>
        rw [hr] at hp
        rcases List.mem_cons.mp hp with rfl | hp2
        · rcases List.mem_cons.mp hc with rfl | hc2
          · exact ⟨List.mem_cons_self _ _, by simpa using h⟩
          · have := ih x (by rw [hr]; exact List.mem_cons_self _ _) c hc2
            exact ⟨List.mem_cons_of_mem _ this.1, this.2⟩
        · have := ih part (by rw [hr]; exact List.mem_cons_of_mem _ hp2) c hc
          exact ⟨List.mem_cons_of_mem _ this.1, this.2⟩

/-- A list without the separator splits into the single piece that is the
whole list. -/
theorem splitCharList_eq_single (sep : Char) (cs : List Char)
    (h : ∀ c ∈ cs, ¬c = sep) : splitCharList sep cs = [cs] := by
  induction cs with
  | nil => rfl
  | cons c0 cs ih =>
    unfold splitCharList
    have hne : ¬(c0 == sep) = true := by
      simpa using h c0 (List.mem_cons_self _ _)
    rw [ih (fun c hc => h c (List.mem_cons_of_mem _ hc))]
    simp [hne]

theorem splitStr_eq_single (s : String) (sep : Char)
    (h : ∀ c ∈ s.data, ¬c = sep) : splitStr s sep = [s] := by
  unfold splitStr
  rw [splitCharList_eq_single sep s.data h]
  rfl

/-- No character of the pathname of a parsed URL is `'?'` (the query is cut
before the pathname is formed). -/
theorem parseURL_pathname_no_query (url : String) (u : ParsedURL)
    (h : parseURL url = some u) : ∀ c ∈ u.pathname.data, ¬c = '?' := by
  unfold parseURL at h
  cases hs : splitFirstSub url.data "://".data with
  | none => rw [hs] at h; exact absurd h (by simp)
  | some pr =>
    rw [hs] at h
    obtain ⟨schemeCs, rest⟩ := pr
    simp only at h
    by_cases hsch : schemeOk schemeCs = true
    · simp only [hsch, if_true] at h
      by_cases hh : (hostOf ((rest.takeWhile (fun c => !(c == '#'))).takeWhile
          (fun c => !(c == '?'))
          |>.takeWhile (fun c => !(c == '/')))).isEmpty = true
      · rw [if_pos hh] at h
        exact absurd h (by simp)
      · rw [if_neg hh] at h
        have hu := Option.some.inj h
        intro c hc
        have hdata : u.pathname.data =
            (if (((rest.takeWhile (fun c => !(c == '#'))).takeWhile
                (fun c => !(c == '?'))).dropWhile (fun c => !(c == '/'))).isEmpty = true
             then ['/']
             else ((rest.takeWhile (fun c => !(c == '#'))).takeWhile
                (fun c => !(c == '?'))).dropWhile (fun c => !(c == '/'))) := by
          rw [← hu]
        rw [hdata] at hc
        by_cases hemp : (((rest.takeWhile (fun c => !(c == '#'))).takeWhile
            (fun c => !(c == '?'))).dropWhile (fun c => !(c == '/'))).isEmpty = true
        · rw [if_pos hemp] at hc
          simp at hc
          subst hc
          decide
        · rw [if_neg hemp] at hc
          have hmem : c ∈ (rest.takeWhile (fun c => !(c == '#'))).takeWhile
              (fun c => !(c == '?')) :=
            (List.dropWhile_sublist _).subset hc
          have := List.mem_takeWhile_imp hmem
          simpa using this
    · rw [if_neg hsch] at h
      exact absurd h (by simp)

/-- Every nonempty path segment of a parsed URL contains no `'?'`, so
JavaScript's `segment.split("?")[0]` is the segment itself. -/
theorem pathSegment_split_query (url : String) (u : ParsedURL)
    (h : parseURL url = some u) (seg : String) (hseg : seg ∈ pathSegments u) :
    (splitStr seg '?').headD "" = seg := by
  unfold pathSegments at hseg
  have hseg' : seg ∈ splitStr u.pathname '/' := (List.mem_filter.mp hseg).1
  unfold splitStr at hseg'
  obtain ⟨part, hpart, rfl⟩ := List.mem_map.mp hseg'
  have hchars : ∀ c ∈ part, ¬c = '?' := by
    intro c hc
    have := (mem_of_mem_splitCharList '/' u.pathname.data part hpart c hc).1
    exact parseURL_pathname_no_query url u h c this
  rw [splitStr_eq_single (String.mk part) '?' hchars]
  rfl

/-- `clamp01` lands in `[0, 1]`. -/
theorem clamp01_mem (n : JSNum) : 0 ≤ clamp01 n ∧ clamp01 n ≤ 1 := by
  cases n with
  | num q =>
    refine ⟨le_max_left _ _, ?_⟩
    simp only [clamp01]
    exact max_le (by norm_num) (min_le_left _ _)
  | nan => simp [clamp01]

/-- `Math.round(q * 100)` lies in `[0, 100]` whenever `q` lies in `[0, 1]`. -/
theorem jsRound_pct_bounds (q : ℚ) (h0 : 0 ≤ q) (h1 : q ≤ 1) :
    0 ≤ jsRound (q * 100) ∧ jsRound (q * 100) ≤ 100 := by
  unfold jsRound
  constructor
  · exact Int.le_floor.mpr (by push_cast; linarith)
  · have hlt : ⌊q * 100 + 1 / 2⌋ < 101 := Int.floor_lt.mpr (by push_cast; linarith)
    omega

/-! ## Claim theorems -/

/-- C1: when the POST to `/api/predict/images` fails and at least one
captured frame exists, exactly one fallback request is made — a POST to
`/api/predict/image` carrying only the first frame under the single-file
field name `"file"` — and no further retry follows, whatever the fallback's
own outcome. -/
theorem C1_images_fallback_once (b : Blob) (bs : List Blob) (origin : Origin)
    (imageResp : Option JResp) (whenT : String) (st : AppState) :
    (analyzeImagesBlobs (b :: bs) origin none imageResp whenT st).2
      = [Request.postImages "files" (b :: bs), Request.postImage "file" b] := by
  cases imageResp <;> rfl

/-- C3: recording a result prepends the new history entry at the front and
truncates to at most 8 entries, so the list never exceeds 8 and the most
recent entry is always first. -/
theorem C3_history_capped (j : JResp) (whenT : String) (origin : Origin) (st : AppState) :
    (updateResults j whenT origin st).history
        = historyEntry j whenT origin :: st.history.take 7 ∧
    (updateResults j whenT origin st).history.length ≤ 8 ∧
    (updateResults j whenT origin st).history.head?
        = some (historyEntry j whenT origin) := by
  refine ⟨rfl, ?_, rfl⟩
  exact List.length_take_le _ _

/-- C9: submitting text that trims to the empty string performs no HTTP
request and leaves the whole component state unchanged. -/
theorem C9_empty_text_noop (st : AppState) (resp : Option JResp) (whenT : String)
    (h : trimStr st.text = "") :
    analyzeText st resp whenT = (st, []) := by
  simp [analyzeText, h]

/-- C9 witness: whitespace-only text at the initial state. -/
theorem C9_empty_text_noop_witness :
    analyzeText { st0 with text := "   " } none "12:00:00" = ({ st0 with text := "   " }, []) :=
  C9_empty_text_noop { st0 with text := "   " } none "12:00:00" (by decide)

/-- C6: loading history treats a missing stored value, and any stored value
`JSON.parse` throws on, as the empty list (given that `JSON.parse "[]"`
yields `[]`). -/
theorem C6_history_load_safe (parse : String → JSONOutcome (List HistoryRow))
    (hempty : parse "[]" = .ok []) :
    loadHistory none parse = [] ∧
    ∀ s, parse s = .thrown → loadHistory (some s) parse = [] := by
  constructor
  · simp [loadHistory, jsOrD, strOr, hempty]
  · intro s hs
    unfold loadHistory jsOrD strOr
    simp only [Option.getD_some]
    by_cases h : (s == "") = true
    · simp [h, hempty]
    · simp only [h, Bool.false_eq_true, if_false]
      rw [hs]

/-- C6 witness: a missing value and an unparsable value both load as `[]`. -/
theorem C6_history_load_safe_witness :
    loadHistory none parseStub = [] ∧ loadHistory (some "not json") parseStub = [] := by
  have h := C6_history_load_safe parseStub (by decide)
  exact ⟨h.1, h.2 "not json" (by decide)⟩

/-- C8: filtering with category `"all"` returns the playlist unchanged;
filtering with any other category retains exactly the items whose lowercased
title includes some keyword of that category's fixed keyword set; and on
`["Deep Focus Study", "Relax & Chill Vibes"]` the `"chill"` filter keeps
only the second item. -/
theorem C8_playlist_filter :
    (∀ l, filteredList .all l = l) ∧
    (∀ (mo : Mode) (l : List Item) (it : Item), ¬mo = .all →
      (it ∈ filteredList mo l ↔
        it ∈ l ∧
          (categoryKeywords mo).any
            (fun k => jsIncludes (lowerStr (strOr it.title "")) k) = true)) ∧
    filteredList .chill
        [⟨"Deep Focus Study", "Spotify", "https://a", none⟩,
         ⟨"Relax & Chill Vibes", "Spotify", "https://b", none⟩]
      = [⟨"Relax & Chill Vibes", "Spotify", "https://b", none⟩] := by
  refine ⟨fun l => rfl, ?_, by decide⟩
  intro mo l it hmo
  have hne : (mo == Mode.all) = false := by
    cases mo <;> simp_all
  simp [filteredList, hne, List.mem_filter]

/-- String append is associative (on the underlying character lists). -/
theorem strAppend_assoc (a b c : String) : (a ++ b) ++ c = a ++ (b ++ c) := by
  cases a with
  | mk da =>
    cases b with
    | mk db =>
      cases c with
      | mk dc =>
        show String.mk ((da ++ db) ++ dc) = String.mk (da ++ (db ++ dc))
        rw [List.append_assoc]

/-- C10: `toSpotifyEmbed` is total on arbitrary strings (the URL parse
failure path returns `null`), and every non-`null` result starts with
`https://open.spotify.com/embed/`. -/
theorem C10_toSpotifyEmbed_total (url : String) :
    toSpotifyEmbed url = none ∨
    ∃ rest, toSpotifyEmbed url = some ("https://open.spotify.com/embed/" ++ rest) := by
  rcases hp : parseURL url with _ | u
  · left
    simp [toSpotifyEmbed, hp]
  · unfold toSpotifyEmbed
    rw [hp]
    by_cases hinc : jsIncludes u.hostname "open.spotify.com" = true
    · simp only [hinc, if_true]
      rcases hseg : pathSegments u with _ | ⟨ty, _ | ⟨id, rest2⟩⟩
      · exact Or.inl rfl
      · exact Or.inl rfl
      · refine Or.inr ⟨ty ++ ("/" ++ (splitStr id '?').headD ""), ?_⟩
        show some ("https://open.spotify.com/embed/" ++ ty ++ "/" ++ (splitStr id '?').headD "")
          = some ("https://open.spotify.com/embed/" ++ (ty ++ ("/" ++ (splitStr id '?').headD "")))
        rw [strAppend_assoc, strAppend_assoc]
    · simp [hinc]

/-- C4: a URL whose parsed hostname includes the Spotify web-player domain
and whose pathname has at least two nonempty segments maps to
`https://open.spotify.com/embed/<type>/<id>`; the sample playlist URL maps
to its embed URL; and a URL that is not a Spotify one (hostname without the
domain, or no URL at all) yields no embed. -/
theorem C4_spotify_embed :
    (∀ (url : String) (u : ParsedURL) (ty id : String) (rest : List String),
      parseURL url = some u →
      jsIncludes u.hostname "open.spotify.com" = true →
      pathSegments u = ty :: id :: rest →
      toSpotifyEmbed url = some ("https://open.spotify.com/embed/" ++ ty ++ "/" ++ id)) ∧
    toSpotifyEmbed "https://open.spotify.com/playlist/37i9dQZF1DXcBWIGoYBM5M?si=abc"
      = some "https://open.spotify.com/embed/playlist/37i9dQZF1DXcBWIGoYBM5M" ∧
    (∀ (url : String) (u : ParsedURL), parseURL url = some u →
      jsIncludes u.hostname "open.spotify.com" = false → toSpotifyEmbed url = none) ∧
    (∀ url : String, parseURL url = none → toSpotifyEmbed url = none) := by
  refine ⟨?_, by decide, ?_, ?_⟩
  · intro url u ty id rest hparse hinc hseg
    have hid : (splitStr id '?').headD "" = id :=
      pathSegment_split_query url u hparse id (by rw [hseg]; simp)
    unfold toSpotifyEmbed
    rw [hparse]
    simp only [hinc, if_true]
    rw [hseg]
    show some ("https://open.spotify.com/embed/" ++ ty ++ "/" ++ (splitStr id '?').headD "")
      = some ("https://open.spotify.com/embed/" ++ ty ++ "/" ++ id)
    rw [hid]
  · intro url u hparse hinc
    unfold toSpotifyEmbed
    rw [hparse]
    simp [hinc]
  · intro url hparse
    simp [toSpotifyEmbed, hparse]

/-- JavaScript `s || ""` is the identity on strings. -/
theorem strOr_empty (s : String) : strOr s "" = s := by
  unfold strOr
  by_cases h : (s == "") = true
  · rw [if_pos h]
    exact (by simpa using h : s = "").symm
  · rw [if_neg h]

/-- Every emoji the static table yields is a nonempty string. -/
theorem emojiFor_ne_empty (m e : String) (h : emojiFor m = some e) : ¬e = "" := by
  unfold emojiFor at h
  obtain ⟨p, hp, rfl⟩ := Option.map_eq_some'.mp h
  have hmem : p ∈ EMOJI := List.mem_of_find?_eq_some hp
  have hall : ∀ p ∈ EMOJI, ¬p.2 = "" := by decide
  exact hall p hmem

/-- C2 counterexample: a response with `confidence: 2` renders `200%` in the
main result section — outside `[0, 100]`, so the rendered percentage is not
clamped there. -/
theorem C2_counterexample :
    (updateResults respConf2 "12:00:00" .camera st0).conf = .num 2 ∧
    mainConfPct (updateResults respConf2 "12:00:00" .camera st0).conf = .num 200 ∧
    ¬((0 : ℚ) ≤ 200 ∧ (200 : ℚ) ≤ 100) := by
  have hc : (updateResults respConf2 "12:00:00" .camera st0).conf = .num 2 := by
    show normConf respConf2 = .num 2
    norm_num [normConf, respConf2, jsOr, truthy, jsToNumber]
  refine ⟨hc, ?_, by norm_num⟩
  rw [hc]
  norm_num [mainConfPct, jsMulN, jsRoundN, jsRound]

/-- C2 as amended: the main result section renders
`Math.round(conf * 100)` with no clamping — within `[0, 100]` exactly on
coerced confidences within `[0, 1]`, outside it otherwise (`2 ↦ 200`), and
NaN propagating. -/
theorem C2_main_pct_unclamped :
    (∀ q : ℚ, mainConfPct (.num q) = .num ((jsRound (q * 100) : ℤ) : ℚ)) ∧
    (∀ q : ℚ, 0 ≤ q → q ≤ 1 → 0 ≤ jsRound (q * 100) ∧ jsRound (q * 100) ≤ 100) ∧
    mainConfPct .nan = .nan ∧
    mainConfPct (.num 2) = .num 200 := by
  refine ⟨fun q => rfl, fun q h0 h1 => jsRound_pct_bounds q h0 h1, rfl, ?_⟩
  norm_num [mainConfPct, jsMulN, jsRoundN, jsRound]

/-- C5 counterexample: a response whose `confidence` is the truthy
non-numeric string `"abc"` normalizes to `NaN`, not to the claimed default
`0`. -/
theorem C5_counterexample :
    (updateResults respConfAbc "12:00:00" .text st0).conf = .nan ∧
    JSNum.nan ≠ JSNum.num 0 := by
  constructor
  · show normConf respConfAbc = .nan
    decide
  · decide

/-- C5 as amended: normalization lowercases the mood label; resolves the
emoji from a truthy response field, else the static table, else `"🎧"`;
coerces the confidence with `Number(confidence || 0)` — `0` for an absent
or falsy field, `Number`'s value for a truthy one, so a truthy non-numeric
string gives `NaN` rather than `0`; and defaults the playlist to `[]`
whenever the field is not an array. -/
theorem C5_normalization :
    (∀ (j : JResp) (s : String), j.mood = some s → normMood j = lowerStr s) ∧
    (∀ j : JResp, j.mood = none → normMood j = "") ∧
    (∀ (j : JResp) (e : String), j.emoji = some e → ¬e = "" → normEmoji j = e) ∧
    (∀ j : JResp, (j.emoji = none ∨ j.emoji = some "") →
      ∀ e, emojiFor (normMood j) = some e → normEmoji j = e) ∧
    (∀ j : JResp, (j.emoji = none ∨ j.emoji = some "") →
      emojiFor (normMood j) = none → normEmoji j = "🎧") ∧
    (∀ j : JResp, truthy j.confidence = false → normConf j = .num 0) ∧
    (∀ j : JResp, truthy j.confidence = true → normConf j = jsToNumber j.confidence) ∧
    (updateResults respConfAbc "12:00:00" .text st0).conf = .nan ∧
    (∀ (j : JResp) (l : List Item), j.playlist = .arr l → normPlaylist j = l) ∧
    (∀ j : JResp, (∀ l, ¬j.playlist = .arr l) → normPlaylist j = []) := by
  refine ⟨?_, ?_, ?_, ?_, ?_, ?_, ?_, by decide, ?_, ?_⟩
  · intro j s hm
    unfold normMood jsOrD
    rw [hm]
    simp only [Option.getD_some]
    rw [strOr_empty]
  · intro j hm
    unfold normMood jsOrD
    rw [hm]
    rfl
  · intro j e he hne
    unfold normEmoji jsOrD
    rw [he]
    simp only [Option.getD_some]
    unfold strOr
    simp [hne]
  · intro j he e htab
    have hne := emojiFor_ne_empty _ e htab
    have hget : j.emoji.getD "" = "" := by
      rcases he with h | h <;> rw [h] <;> rfl
    unfold normEmoji jsOrD
    rw [hget, htab]
    simp only [Option.getD_some]
    unfold strOr
    simp [hne]
  · intro j he htab
    have hget : j.emoji.getD "" = "" := by
      rcases he with h | h <;> rw [h] <;> rfl
    unfold normEmoji jsOrD
    rw [hget, htab]
    rfl
  · intro j hc
    unfold normConf jsOr
    rw [hc]
    rfl
  · intro j hc
    unfold normConf jsOr
    rw [hc]
    rfl
  · intro j l hp
    unfold normPlaylist
    rw [hp]
  · intro j hp
    unfold normPlaylist
    cases hv : j.playlist with
    | arr l => exact absurd hv (hp l)
    | num q => rfl
    | nan => rfl
    | str s => rfl
    | boolean b => rfl
    | jnull => rfl
    | undef => rfl

/-- The descending-by-value sort is `Pairwise`-sorted. -/
theorem sortProbsDesc_sorted (ps : List (String × ℚ)) :
    (sortProbsDesc ps).Pairwise (fun a b : String × ℚ => decide (b.2 ≤ a.2) = true) := by
  unfold sortProbsDesc
  exact List.sorted_mergeSort
    (fun a b c hab hbc => by
      simp only [decide_eq_true_eq] at *
      linarith)
    (fun a b => by
      rcases le_total b.2 a.2 with h | h <;> simp [h])
    ps

/-- C7: with `probs` absent the breakdown renders nothing; with `probs`
present it renders the entries sorted by probability descending, capped to
the top 6 (every dropped entry's value is at most every kept one's), each
value clamped to `[0, 1]` before percentage conversion, so every rendered
percentage lies in `[0, 100]`. -/
theorem C7_minichart :
    MiniChart none = none ∧
    (∀ ps : List (String × ℚ),
      ∃ entries : List (String × ℚ),
        MiniChart (some ps)
            = some (entries.map (fun kv => (kv.1, jsRound (clamp01 (.num kv.2) * 100)))) ∧
        entries.length ≤ 6 ∧
        entries.Pairwise (fun a b => b.2 ≤ a.2) ∧
        (∀ kv ∈ entries, kv ∈ ps) ∧
        (∀ kv ∈ entries,
          0 ≤ jsRound (clamp01 (.num kv.2) * 100) ∧
            jsRound (clamp01 (.num kv.2) * 100) ≤ 100) ∧
        (∀ d ∈ (sortProbsDesc ps).drop 6, ∀ kv ∈ entries, d.2 ≤ kv.2)) := by
  refine ⟨rfl, fun ps =>
    ⟨(sortProbsDesc ps).take 6, rfl, List.length_take_le _ _, ?_, ?_, ?_, ?_⟩⟩
  · exact ((sortProbsDesc_sorted ps).sublist (List.take_sublist _ _)).imp
      (fun h => of_decide_eq_true h)
  · intro kv hkv
    have h1 : kv ∈ sortProbsDesc ps := (List.take_sublist _ _).subset hkv
    unfold sortProbsDesc at h1
    exact List.mem_mergeSort.mp h1
  · intro kv _
    exact jsRound_pct_bounds _ (clamp01_mem _).1 (clamp01_mem _).2
  · intro d hd kv hkv
    have hsor := sortProbsDesc_sorted ps
    have hsplit : sortProbsDesc ps
        = (sortProbsDesc ps).take 6 ++ (sortProbsDesc ps).drop 6 :=
      (List.take_append_drop 6 _).symm
    rw [hsplit] at hsor
    exact of_decide_eq_true ((List.pairwise_append.mp hsor).2.2 kv hkv d hd)
